import Mathlib

/-!
# Verification of the MemoryPool allocator

Shallow embedding of the C++11 fixed-size-object memory pool
(`MemoryPool.h` / `MemoryPool.tcc`, template `MemoryPool<T, BlockSize>`).

Addresses are modelled as natural numbers (`uintptr_t` values, so `< 2^64`
where the arithmetic of the source wraps); the null pointer is `0`.
The compile-time quantities `BlockSize`, `sizeof(Slot_)`, `alignof(Slot_)`,
`alignof(T)` and `sizeof(slot_pointer_)` are gathered in a `Config`.

The pool state mirrors the four member pointers of the class:
`currentBlock_` (head of the block chain, threaded through the first word of
each block — modelled as the list of block base addresses reachable from it),
`currentSlot_`, `lastSlot_`, and `freeSlots_` (head of the free list, threaded
through the freed slots themselves — modelled as the list of addresses on that
chain, head first).  The system allocator (`operator new`) is modelled by an
oracle supplying the base address of each successive block, or failing.
-/

set_option autoImplicit false

namespace MemPool

/-- Size of a machine word in this model: addresses and `size_type` /
`uintptr_t` values are 64-bit, so unsigned arithmetic wraps modulo `2 ^ 64`. -/
def wordMod : Nat := 2 ^ 64

/-- Compile-time configuration of one instantiation `MemoryPool<T, BlockSize>`:
`blockSize` is the template parameter `BlockSize`; `slotSize` is
`sizeof(Slot_)` (the union of a `T` and a `Slot_*`); `slotAlign` is
`alignof(Slot_)`; `elemAlign` is `alignof(T)`; `ptrSize` is
`sizeof(slot_pointer_)`. -/
structure Config where
  blockSize : Nat
  slotSize : Nat
  slotAlign : Nat
  elemAlign : Nat
  ptrSize : Nat
deriving DecidableEq, Repr

/-- State of one `MemoryPool` object.

* `blocks`: the base addresses of the blocks on the chain reachable from the
  member `currentBlock_`, most recently allocated first (the chain is threaded
  through the first word of each block); `currentBlock_ == nullptr` is the
  empty list.
* `currentSlot`: the member `currentSlot_` as an address.
* `lastSlot`: the member `lastSlot_` as an address.
* `freeSlots`: the addresses on the free-list chain headed by the member
  `freeSlots_`, head first; `freeSlots_ == nullptr` is the empty list. -/
structure Pool where
  blocks : List Nat
  currentSlot : Nat
  lastSlot : Nat
  freeSlots : List Nat
deriving DecidableEq, Repr

/-- The member `currentBlock_` as an address (0 = `nullptr`). -/
def Pool.currentBlock (s : Pool) : Nat := s.blocks.headD 0

/-- `MemoryPool()` : the default constructor sets all four member pointers to
`nullptr`. -/
def Pool.init : Pool := ⟨[], 0, 0, []⟩

/-- `padPointer(p, align)` from `MemoryPool.tcc`:

`uintptr_t result = reinterpret_cast<uintptr_t>(p); return ((align - result) % align);`

The subtraction is on `uintptr_t`, hence modulo `2 ^ 64`; `p` and `align`
are reduced modulo the word size as 64-bit values are. -/
def padPointer (p align : Nat) : Nat :=
  ((align % wordMod + (wordMod - p % wordMod)) % wordMod) % align

/-- `allocateBlock()` from `MemoryPool.tcc`, after `operator new(BlockSize)`
has returned the fresh block at base address `newBlock`:
the first word of the new block receives the old `currentBlock_` (modelled by
consing onto `blocks`), `currentSlot_` becomes the body start padded for
`alignof(slot_type_)`, and `lastSlot_` becomes
`newBlock + BlockSize - sizeof(slot_type_) + 1`. -/
def allocateBlock (cfg : Config) (newBlock : Nat) (s : Pool) : Pool :=
  let body := newBlock + cfg.ptrSize
  let bodyPadding := padPointer body cfg.slotAlign
  { blocks := newBlock :: s.blocks
    currentSlot := body + bodyPadding
    lastSlot := newBlock + cfg.blockSize - cfg.slotSize + 1
    freeSlots := s.freeSlots }

/-- `allocate(n, hint)` from `MemoryPool.tcc`.  `fresh` is the system
allocator's answer should block growth be needed on this call: `some b` means
`operator new(BlockSize)` would return base address `b`, `none` means it would
throw `bad_alloc`.  A thrown `bad_alloc` propagates out of `allocate` before
any member is mutated, which the model renders as `Except.error` carrying the
pool state at the throw point.  The source reads neither `n` nor `hint`
(`// Can only allocate one object at a time. n and hint are ignored`).
`currentSlot_++` advances by one `Slot_`, i.e. by `sizeof(Slot_)` bytes. -/
def allocate (cfg : Config) (fresh : Option Nat) (n : Nat) (hint : Nat)
    (s : Pool) : Except Pool (Nat × Pool) :=
  match s.freeSlots with
  | result :: rest => Except.ok (result, { s with freeSlots := rest })
  | [] =>
    if s.lastSlot ≤ s.currentSlot then
      match fresh with
      | none => Except.error s
      | some newBlock =>
        let s' := allocateBlock cfg newBlock s
        Except.ok (s'.currentSlot, { s' with currentSlot := s'.currentSlot + cfg.slotSize })
    else
      Except.ok (s.currentSlot, { s with currentSlot := s.currentSlot + cfg.slotSize })

/-- `deallocate(p, n)` from `MemoryPool.tcc`: if `p != nullptr`, write the old
free-list head into `p->next` and make `p` the new head; `n` is unused by the
source. -/
def deallocate (p : Nat) (n : Nat) (s : Pool) : Pool :=
  if p ≠ 0 then { s with freeSlots := p :: s.freeSlots } else s

/-- `deleteElement(p)` from `MemoryPool.tcc`: if `p != nullptr`, invoke
`p->~value_type()` and then `deallocate(p)`.  The returned boolean records
whether the destructor of the element was invoked. -/
def deleteElement (p : Nat) (s : Pool) : Bool × Pool :=
  if p ≠ 0 then (true, deallocate p 1 s) else (false, s)

/-- `~MemoryPool()` from `MemoryPool.tcc`: walk the chain from
`currentBlock_` and call `operator delete` on every block.  The result is the
list of block base addresses passed to `operator delete`, in order. -/
def destructorFrees (s : Pool) : List Nat := s.blocks

/-- `MemoryPool(MemoryPool&& memoryPool)` from `MemoryPool.tcc`:
the destination takes `currentBlock_`, `currentSlot_`, `lastSlot_` and the
free-list head from the source, and only the source's `currentBlock_` is reset
to `nullptr` (so the chain is no longer reachable from the source, i.e. its
`blocks` list becomes empty); the source's other three members are left as
they were.  (The source text reads the free-list head member as
`memoryPool.freeSlots`; the declared member of the class is `freeSlots_`,
which is what this read can denote.)  Returns
(destination pool, source pool after the move). -/
def moveConstruct (src : Pool) : Pool × Pool :=
  (⟨src.blocks, src.currentSlot, src.lastSlot, src.freeSlots⟩,
   ⟨[], src.currentSlot, src.lastSlot, src.freeSlots⟩)

/-- Address of the first (aligned) slot of the block at base address `b`:
`b + sizeof(slot_pointer_)` padded to `alignof(slot_type_)`, exactly as
`allocateBlock` computes `currentSlot_`. -/
def firstSlot (cfg : Config) (b : Nat) : Nat :=
  b + cfg.ptrSize + padPointer (b + cfg.ptrSize) cfg.slotAlign

/-- Number of whole slots that fit in the block at base address `b` after the
leading back-reference word and the body padding. -/
def slotsPerBlock (cfg : Config) (b : Nat) : Nat :=
  (b + cfg.blockSize - firstSlot cfg b) / cfg.slotSize

/-- The address `p` is a slot of the block at base `b`: it lies on the slot
grid starting at the padded body and the whole slot fits inside the block. -/
def SlotIn (cfg : Config) (b p : Nat) : Prop :=
  ∃ i, p = firstSlot cfg b + i * cfg.slotSize ∧ p + cfg.slotSize ≤ b + cfg.blockSize

/-- Facts about a configuration that hold for every legal C++ instantiation
of `MemoryPool<T, BlockSize>`:
the slot is nonempty; `alignof(Slot_)` is a positive power of two (hence a
divisor of `2 ^ 64`) below the word size; `sizeof(Slot_)` is a multiple of
`alignof(Slot_)`; `alignof(T)` divides `alignof(Slot_)` (the union contains a
`T`); a pointer fits in a slot (the union contains a `Slot_*`); and the
`static_assert(BlockSize >= 2 * sizeof(slot_type_))` of `MemoryPool.h`. -/
structure CfgOK (cfg : Config) : Prop where
  slotSize_pos : 0 < cfg.slotSize
  align_pos : 0 < cfg.slotAlign
  align_dvd_slot : cfg.slotAlign ∣ cfg.slotSize
  elem_dvd_align : cfg.elemAlign ∣ cfg.slotAlign
  ptr_le_slot : cfg.ptrSize ≤ cfg.slotSize
  two_slots : 2 * cfg.slotSize ≤ cfg.blockSize
  align_dvd_word : cfg.slotAlign ∣ wordMod
  align_lt_word : cfg.slotAlign < wordMod

/-- The system-allocator oracle behaves like `operator new` for the first `N`
block requests: each returned block is aligned for `Slot_`, lies within the
address space, and is disjoint from every other returned block. -/
def OracleOK (cfg : Config) (oracle : Nat → Nat) (N : Nat) : Prop :=
  ∀ i, i < N → cfg.slotAlign ∣ oracle i ∧ oracle i + cfg.blockSize < wordMod ∧
    ∀ j, j < N → j ≠ i →
      oracle i + cfg.blockSize ≤ oracle j ∨ oracle j + cfg.blockSize ≤ oracle i

/-- One operation of a client driving the pool through its public interface. -/
inductive Op where
  | alloc : Op
  | dealloc : Nat → Op
deriving DecidableEq, Repr

/-- A pool together with the harness bookkeeping of a run: `live` are the
addresses returned by `allocate` and not yet passed to `deallocate`;
`returned` are all addresses ever returned by `allocate`. -/
structure RunState where
  pool : Pool
  live : List Nat
  returned : List Nat
deriving DecidableEq, Repr

/-- One step of a client run.  An `alloc` performs `allocate` with the system
allocator modelled by `oracle` (indexed by the number of blocks requested so
far, which is the length of the block chain).  A `dealloc p` performs
`deallocate p` only when `p` is currently live, which is exactly the validity
precondition of the source (`p` previously returned and not yet freed). -/
def step (cfg : Config) (oracle : Nat → Nat) (st : RunState) (op : Op) : RunState :=
  match op with
  | Op.alloc =>
    match allocate cfg (some (oracle st.pool.blocks.length)) 1 0 st.pool with
    | Except.ok (a, s') => ⟨s', a :: st.live, a :: st.returned⟩
    | Except.error s' => ⟨s', st.live, st.returned⟩
  | Op.dealloc p =>
    if p ∈ st.live then
      ⟨deallocate p 1 st.pool, st.live.erase p, st.returned⟩
    else st

/-- A whole client run from a freshly constructed pool. -/
def run (cfg : Config) (oracle : Nat → Nat) (ops : List Op) : RunState :=
  ops.foldl (step cfg oracle) ⟨Pool.init, [], []⟩

/-- Invariant of a run state, preserved by every step (given a well-behaved
oracle): the block chain consists of the oracle's answers in order; an empty
chain means the freshly constructed state; `lastSlot_` and `currentSlot_`
describe the head block; every live or free address is a slot of some owned
block, and slots of the head block were handed out strictly below the bump
cursor; no address is live or free twice. -/
structure WF (cfg : Config) (oracle : Nat → Nat) (st : RunState) : Prop where
  blocks_eq : st.pool.blocks = (List.range st.pool.blocks.length).reverse.map oracle
  empty_inv : st.pool.blocks = [] →
    st.pool.currentSlot = 0 ∧ st.pool.lastSlot = 0 ∧ st.live = [] ∧
      st.pool.freeSlots = [] ∧ st.returned = []
  last_eq : ∀ b bs, st.pool.blocks = b :: bs →
    st.pool.lastSlot = b + cfg.blockSize - cfg.slotSize + 1
  cur_grid : ∀ b bs, st.pool.blocks = b :: bs →
    ∃ j, st.pool.currentSlot = firstSlot cfg b + j * cfg.slotSize
  mem_slots : ∀ p, p ∈ st.live ++ st.pool.freeSlots →
    ∃ b, b ∈ st.pool.blocks ∧ SlotIn cfg b p
  ret_slots : ∀ p, p ∈ st.returned → ∃ b, b ∈ st.pool.blocks ∧ SlotIn cfg b p
  mem_below : ∀ p, p ∈ st.live ++ st.pool.freeSlots → ∀ b bs,
    st.pool.blocks = b :: bs → SlotIn cfg b p → p + cfg.slotSize ≤ st.pool.currentSlot
  nodup : (st.live ++ st.pool.freeSlots).Nodup

/-- A sample legal instantiation: `BlockSize = 32` with an 8-byte, 8-aligned
slot (e.g. `MemoryPool<long, 32>` on a 64-bit platform). -/
def cfg0 : Config := ⟨32, 8, 8, 8, 8⟩

/-- A sample well-behaved system allocator: the i-th block request is served
at base address `1024 * (i + 1)`. -/
def orc0 : Nat → Nat := fun i => 1024 * (i + 1)

/-- A sample pool holding one block with a non-empty free list. -/
def poolC1 : Pool := ⟨[1024], 1048, 1049, [1032]⟩

/-- A sample pool whose free list holds address 5. -/
def poolF : Pool := ⟨[], 0, 0, [5]⟩

/-- A sample client run: two allocations. -/
def ops0 : List Op := [Op.alloc, Op.alloc]

/-- A sample client run: allocate three, free the middle one, allocate two. -/
def ops1 : List Op :=
  [Op.alloc, Op.alloc, Op.alloc, Op.dealloc 1040, Op.alloc, Op.alloc]

/-! ### Arithmetic facts about `padPointer` -/

lemma padPointer_char (p align : Nat) (hp : p < wordMod) (h0 : 0 < align)
    (hd : align ∣ wordMod) (hlt : align < wordMod) :
    padPointer p align = (align - p % align) % align := by
  obtain ⟨k, hk⟩ := hd
  have hpm : p % wordMod = p := Nat.mod_eq_of_lt hp
  have ham : align % wordMod = align := Nat.mod_eq_of_lt hlt
  have hstep : padPointer p align = (align + wordMod - p) % wordMod % align := by
    unfold padPointer
    rw [hpm, ham]
    congr 2
    omega
  rw [hstep, Nat.mod_mod_of_dvd _ ⟨k, hk⟩]
  have hqr : align * (p / align) + p % align = p := Nat.div_add_mod p align
  have hrlt : p % align < align := Nat.mod_lt _ h0
  have hql : p / align < k := by
    rcases Nat.lt_or_ge (p / align) k with h | h
    · exact h
    · have h2 : align * k ≤ align * (p / align) := Nat.mul_le_mul_left align h
      omega
  obtain ⟨d, hdk⟩ : ∃ d, k = p / align + d := ⟨k - p / align, by omega⟩
  have hk2 : wordMod = align * (p / align) + align * d := by
    rw [hk, hdk, Nat.mul_add]
  have hsplit : align + wordMod - p = align - p % align + align * d := by omega
  rw [hsplit, Nat.add_mul_mod_self_left]

lemma padPointer_aligns (p align : Nat) (hp : p < wordMod) (h0 : 0 < align)
    (hd : align ∣ wordMod) (hlt : align < wordMod) :
    (p + padPointer p align) % align = 0 := by
  rw [padPointer_char p align hp h0 hd hlt]
  have hrlt : p % align < align := Nat.mod_lt _ h0
  rcases Nat.eq_zero_or_pos (p % align) with hr | hr
  · rw [hr, Nat.sub_zero, Nat.mod_self, Nat.add_zero]
    exact hr
  · have h1 : (align - p % align) % align = align - p % align :=
      Nat.mod_eq_of_lt (by omega)
    rw [h1, Nat.add_mod, h1, Nat.add_sub_cancel' (le_of_lt hrlt), Nat.mod_self]

lemma padPointer_min (p align o : Nat) (hp : p < wordMod) (h0 : 0 < align)
    (hd : align ∣ wordMod) (hlt : align < wordMod) (ho : (p + o) % align = 0) :
    padPointer p align ≤ o := by
  rw [padPointer_char p align hp h0 hd hlt]
  have hrlt : p % align < align := Nat.mod_lt _ h0
  have holt : o % align < align := Nat.mod_lt _ h0
  have h2 : (p % align + o % align) % align = 0 := by rw [← Nat.add_mod, ho]
  have hole : o % align ≤ o := Nat.mod_le o align
  obtain ⟨c, hc⟩ := Nat.dvd_of_mod_eq_zero h2
  have hc2 : c ≤ 1 := by
    rcases le_or_lt c 1 with h | h
    · exact h
    · have h3 : align * 2 ≤ align * c := Nat.mul_le_mul_left align h
      omega
  rcases Nat.eq_zero_or_pos c with h | h
  · subst h
    rw [Nat.mul_zero] at hc
    have hp0 : p % align = 0 := by omega
    rw [hp0, Nat.sub_zero, Nat.mod_self]
    exact Nat.zero_le o
  · have hc1 : c = 1 := by omega
    subst hc1
    rw [Nat.mul_one] at hc
    have h4 : (align - p % align) % align = align - p % align :=
      Nat.mod_eq_of_lt (by omega)
    omega

lemma padPointer_int_form (p align : Nat) (hp : p < wordMod) (h0 : 0 < align)
    (hd : align ∣ wordMod) (hlt : align < wordMod) :
    (padPointer p align : ℤ) = ((align : ℤ) - (p : ℤ)) % (align : ℤ) := by
  rw [padPointer_char p align hp h0 hd hlt]
  have hrlt : p % align < align := Nat.mod_lt _ h0
  have hsub : ((align : ℤ) - (p : ℤ)) % (align : ℤ)
      = (0 - ((p % align : ℕ) : ℤ)) % (align : ℤ) := by
    rw [Int.sub_emod, Int.emod_self]
    push_cast
    rfl
  rcases Nat.eq_zero_or_pos (p % align) with hr | hr
  · rw [hr, Nat.sub_zero, Nat.mod_self, hsub, hr]
    simp
  · have h1 : (align - p % align) % align = align - p % align :=
      Nat.mod_eq_of_lt (by omega)
    rw [h1, hsub]
    have h5 : (0 - ((p % align : ℕ) : ℤ)) % (align : ℤ)
        = (0 - ((p % align : ℕ) : ℤ) + (align : ℤ) * 1) % (align : ℤ) := by
      rw [Int.add_mul_emod_self_left]
    rw [h5]
    have h6 : (0 - ((p % align : ℕ) : ℤ) + (align : ℤ) * 1)
        = ((align - p % align : ℕ) : ℤ) := by
      push_cast [Nat.cast_sub (le_of_lt hrlt)]
      ring
    rw [h6]
    have h7 : (0 : ℤ) ≤ ((align - p % align : ℕ) : ℤ) := Int.ofNat_nonneg _
    have h8 : ((align - p % align : ℕ) : ℤ) < (align : ℤ) := by
      have : align - p % align < align := by omega
      exact_mod_cast this
    exact (Int.emod_eq_of_lt h7 h8).symm

/-! ### Claim theorems: the local behavior of the operations -/

/-- C8: for every 64-bit address value `p` and every C++ alignment value
`align` (alignment values are positive powers of two representable in the
word, i.e. nonzero divisors of `2 ^ 64` below it), `padPointer p align` is
the smallest non-negative offset with `(p + offset) mod align = 0`, and it
equals `(align - p) mod align` (as integers). -/
theorem padPointer_spec (p align : Nat) (hp : p < wordMod) (h0 : 0 < align)
    (hd : align ∣ wordMod) (hlt : align < wordMod) :
    (p + padPointer p align) % align = 0 ∧
    (∀ o, (p + o) % align = 0 → padPointer p align ≤ o) ∧
    (padPointer p align : ℤ) = ((align : ℤ) - (p : ℤ)) % (align : ℤ) :=
  ⟨padPointer_aligns p align hp h0 hd hlt,
   fun o ho => padPointer_min p align o hp h0 hd hlt ho,
   padPointer_int_form p align hp h0 hd hlt⟩

/-- Witness for C8 at `p = 10`, `align = 8`. -/
theorem padPointer_spec_witness :
    (10 < wordMod ∧ 0 < 8 ∧ 8 ∣ wordMod ∧ 8 < wordMod) ∧
    ((10 + padPointer 10 8) % 8 = 0 ∧
     (∀ o, (10 + o) % 8 = 0 → padPointer 10 8 ≤ o) ∧
     (padPointer 10 8 : ℤ) = ((8 : ℤ) - (10 : ℤ)) % (8 : ℤ)) :=
  ⟨⟨by decide, by decide, by decide, by decide⟩,
   padPointer_spec 10 8 (by decide) (by decide) (by decide) (by decide)⟩

/-- C2: `allocate` proceeds in exactly this order: (1) a non-empty free list
is popped and its head returned, with no block growth; (2) otherwise, if the
bump cursor has not reached the limit cursor, the bump cursor's address is
returned and the cursor advances by one slot; (3) otherwise a block is grown
and the bump step is performed on the fresh block. -/
theorem allocate_order (cfg : Config) (fresh : Option Nat) (n hint : Nat)
    (s : Pool) :
    (∀ p rest, s.freeSlots = p :: rest →
      allocate cfg fresh n hint s = Except.ok (p, { s with freeSlots := rest })) ∧
    (s.freeSlots = [] → s.currentSlot < s.lastSlot →
      allocate cfg fresh n hint s =
        Except.ok (s.currentSlot,
          { s with currentSlot := s.currentSlot + cfg.slotSize })) ∧
    (∀ newBlock, s.freeSlots = [] → s.lastSlot ≤ s.currentSlot →
      allocate cfg (some newBlock) n hint s =
        Except.ok ((allocateBlock cfg newBlock s).currentSlot,
          { allocateBlock cfg newBlock s with
              currentSlot := (allocateBlock cfg newBlock s).currentSlot + cfg.slotSize })) := by
  refine ⟨?_, ?_, ?_⟩
  · intro p rest hfs
    simp [allocate, hfs]
  · intro hfs hlt
    simp [allocate, hfs, Nat.not_le.mpr hlt]
  · intro newBlock hfs hle
    simp [allocate, hfs, hle]

/-- Witness for C2: popping the free list of `poolF` returns address 5 and
grows no block. -/
theorem allocate_order_witness :
    poolF.freeSlots = 5 :: [] ∧
    allocate cfg0 none 1 0 poolF = Except.ok (5, ⟨[], 0, 0, []⟩) :=
  ⟨rfl, (allocate_order cfg0 none 1 0 poolF).1 5 [] rfl⟩

/-- C3: when the system allocator fails during block growth, the failure
propagates out of `allocate` with the pool state exactly as before the call
(in particular, no partially initialized block is linked in), and `allocate`
fails exactly when the allocator fails while both the free list and the
current block are exhausted — otherwise it fully succeeds. -/
theorem allocate_oom (cfg : Config) (fresh : Option Nat) (n hint : Nat)
    (s : Pool) :
    (∀ t, allocate cfg fresh n hint s = Except.error t → t = s) ∧
    ((∃ t, allocate cfg fresh n hint s = Except.error t) ↔
      fresh = none ∧ s.freeSlots = [] ∧ s.lastSlot ≤ s.currentSlot) := by
  rcases hfs : s.freeSlots with _ | ⟨p, rest⟩
  · by_cases hc : s.lastSlot ≤ s.currentSlot
    · rcases fresh with _ | nb
      · constructor
        · intro t ht
          simp [allocate, hfs, hc] at ht
          exact ht.symm
        · simp [allocate, hfs, hc]
      · constructor
        · intro t ht
          simp [allocate, hfs, hc] at ht
        · simp [allocate, hfs, hc]
    · constructor
      · intro t ht
        simp [allocate, hfs, Nat.not_le.mpr (Nat.lt_of_not_le hc)] at ht
      · simp [allocate, hfs, hc]
  · constructor
    · intro t ht
      simp [allocate, hfs] at ht
    · simp [allocate, hfs]

/-- Witness for C3: on an exhausted fresh pool with a failing allocator,
`allocate` reports the error and the carried state is the unchanged pool. -/
theorem allocate_oom_witness :
    allocate cfg0 none 1 0 Pool.init = Except.error Pool.init ∧
    Pool.init = Pool.init :=
  ⟨rfl, (allocate_oom cfg0 none 1 0 Pool.init).1 Pool.init rfl⟩

/-- C4: LIFO reuse — `deallocate p` pushes `p` onto the free-list head and
the immediately following `allocate` pops that head, so it returns `p` itself
and restores the pool state from before the `deallocate`. -/
theorem deallocate_allocate_lifo (cfg : Config) (fresh : Option Nat)
    (n n' hint : Nat) (s : Pool) (p : Nat) (hp : p ≠ 0) :
    allocate cfg fresh n hint (deallocate p n' s) = Except.ok (p, s) := by
  unfold deallocate
  rw [if_pos hp]
  simp [allocate]

/-- Witness for C4 at `p = 8` on a fresh pool. -/
theorem deallocate_allocate_lifo_witness :
    (8 : Nat) ≠ 0 ∧
    allocate cfg0 none 1 0 (deallocate 8 1 Pool.init) = Except.ok (8, Pool.init) :=
  ⟨by decide, deallocate_allocate_lifo cfg0 none 1 1 0 Pool.init 8 (by decide)⟩

/-- C9: `deallocate` on the null pointer is a no-op on the entire pool state,
and `deleteElement` on the null pointer invokes no destructor and changes no
state. -/
theorem null_is_noop (s : Pool) (n : Nat) :
    deallocate 0 n s = s ∧ deleteElement 0 s = (false, s) := by
  constructor <;> simp [deallocate, deleteElement]

/-- C10: the result and the state effect of `allocate(n, hint)` are
independent of the arguments `n` and `hint`: the source never reads them. -/
theorem allocate_args_irrelevant (cfg : Config) (fresh : Option Nat)
    (s : Pool) (n₁ hint₁ n₂ hint₂ : Nat) :
    allocate cfg fresh n₁ hint₁ s = allocate cfg fresh n₂ hint₂ s := rfl

/-- C1 as stated is false on the code: move-construction resets only the
source's current-block pointer, so a source with a non-empty free list is not
left in the freshly-constructed empty state, and its next `allocate` pops
that stale free list (returning memory now owned by the destination) instead
of triggering block growth. -/
theorem moveConstruct_not_reset :
    ¬ (moveConstruct poolC1).2 = Pool.init ∧
    allocate cfg0 none 1 0 (moveConstruct poolC1).2 =
      Except.ok (1032, ⟨[], 1048, 1049, []⟩) := by
  constructor
  · decide
  · rfl

/-- C1 amended: after move-construction all four cursors transfer to the
destination, but only the source's current-block pointer is nulled; the
source's bump cursor, limit cursor and free-list head keep their old values.
The source's destructor is still a no-op (it frees nothing), the
destination's destructor frees exactly the blocks the source owned, and the
source's next `allocate` pops its stale free list (with no block growth)
whenever that list is non-empty. -/
theorem moveConstruct_amended (src : Pool) :
    (moveConstruct src).1 = src ∧
    (moveConstruct src).2.blocks = [] ∧
    destructorFrees (moveConstruct src).2 = [] ∧
    destructorFrees (moveConstruct src).1 = src.blocks ∧
    (moveConstruct src).2.currentSlot = src.currentSlot ∧
    (moveConstruct src).2.lastSlot = src.lastSlot ∧
    (moveConstruct src).2.freeSlots = src.freeSlots ∧
    (∀ cfg fresh n hint p rest, src.freeSlots = p :: rest →
      ∃ t, allocate cfg fresh n hint (moveConstruct src).2 = Except.ok (p, t) ∧
        t.blocks = []) := by
  refine ⟨rfl, rfl, rfl, rfl, rfl, rfl, rfl, ?_⟩
  intro cfg fresh n hint p rest hfs
  refine ⟨⟨[], src.currentSlot, src.lastSlot, rest⟩, ?_, rfl⟩
  simp [allocate, moveConstruct, hfs]

/-- Witness for the amended C1 at `poolC1`. -/
theorem moveConstruct_amended_witness :
    poolC1.freeSlots = 1032 :: [] ∧
    (∃ t, allocate cfg0 none 1 0 (moveConstruct poolC1).2 =
        Except.ok (1032, t) ∧ t.blocks = []) :=
  ⟨rfl,
   (moveConstruct_amended poolC1).2.2.2.2.2.2.2 cfg0 none 1 0 1032 [] rfl⟩

/-! ### Geometry of slots inside blocks -/

lemma roundUp_le (d a b : Nat) (h0 : 0 < d) (hab : a ≤ b) (hdb : d ∣ b) :
    a + (d - a % d) % d ≤ b := by
  rcases Nat.eq_zero_or_pos (a % d) with hr | hr
  · rw [hr, Nat.sub_zero, Nat.mod_self, Nat.add_zero]
    exact hab
  · have hrlt : a % d < d := Nat.mod_lt _ h0
    have h1 : (d - a % d) % d = d - a % d := Nat.mod_eq_of_lt (by omega)
    rw [h1]
    obtain ⟨k, hk⟩ := hdb
    have hqr : d * (a / d) + a % d = a := Nat.div_add_mod a d
    have hql : a / d < k := by
      rcases Nat.lt_or_ge (a / d) k with h | h
      · exact h
      · have h2 : d * k ≤ d * (a / d) := Nat.mul_le_mul_left d h
        omega
    have h3 : d * (a / d + 1) ≤ d * k := Nat.mul_le_mul_left d hql
    rw [Nat.mul_add, Nat.mul_one] at h3
    omega

lemma allocateBlock_def (cfg : Config) (nb : Nat) (s : Pool) :
    allocateBlock cfg nb s =
      ⟨nb :: s.blocks, firstSlot cfg nb,
       nb + cfg.blockSize - cfg.slotSize + 1, s.freeSlots⟩ := by
  simp [allocateBlock, firstSlot]

lemma firstSlot_ge (cfg : Config) (b : Nat) : b ≤ firstSlot cfg b := by
  unfold firstSlot
  omega

lemma first_fit (cfg : Config) (hcfg : CfgOK cfg) (b : Nat)
    (hb : cfg.slotAlign ∣ b) (hbw : b + cfg.blockSize < wordMod) :
    firstSlot cfg b + cfg.slotSize ≤ b + cfg.blockSize := by
  have h2s := hcfg.two_slots
  have hps := hcfg.ptr_le_slot
  have hpw : b + cfg.ptrSize < wordMod := by omega
  have hpe := padPointer_char (b + cfg.ptrSize) cfg.slotAlign hpw
    hcfg.align_pos hcfg.align_dvd_word hcfg.align_lt_word
  have hmod : (b + cfg.ptrSize) % cfg.slotAlign = cfg.ptrSize % cfg.slotAlign := by
    obtain ⟨c, hc⟩ := hb
    rw [hc, Nat.mul_add_mod]
  have hru : cfg.ptrSize +
      (cfg.slotAlign - cfg.ptrSize % cfg.slotAlign) % cfg.slotAlign ≤ cfg.slotSize :=
    roundUp_le cfg.slotAlign cfg.ptrSize cfg.slotSize hcfg.align_pos hps
      hcfg.align_dvd_slot
  unfold firstSlot
  rw [hpe, hmod]
  omega

lemma firstSlot_aligned (cfg : Config) (hcfg : CfgOK cfg) (b : Nat)
    (hbw : b + cfg.ptrSize < wordMod) :
    firstSlot cfg b % cfg.slotAlign = 0 :=
  padPointer_aligns (b + cfg.ptrSize) cfg.slotAlign hbw hcfg.align_pos
    hcfg.align_dvd_word hcfg.align_lt_word

lemma SlotIn_lb (cfg : Config) {b p : Nat} (h : SlotIn cfg b p) : b ≤ p := by
  obtain ⟨i, hi, _⟩ := h
  have := firstSlot_ge cfg b
  omega

lemma SlotIn_ub (cfg : Config) {b p : Nat} (h : SlotIn cfg b p) :
    p + cfg.slotSize ≤ b + cfg.blockSize := h.choose_spec.2

lemma SlotIn_aligned (cfg : Config) (hcfg : CfgOK cfg) {b p : Nat}
    (hbw : b + cfg.ptrSize < wordMod) (h : SlotIn cfg b p) :
    p % cfg.slotAlign = 0 := by
  obtain ⟨i, hi, _⟩ := h
  subst hi
  have h1 := firstSlot_aligned cfg hcfg b hbw
  obtain ⟨c, hc⟩ := hcfg.align_dvd_slot
  rw [hc]
  have h2 : i * (cfg.slotAlign * c) = cfg.slotAlign * (i * c) := by ring
  rw [h2, Nat.add_mul_mod_self_left]
  exact h1

lemma SlotIn_separated (cfg : Config) (hcfg : CfgOK cfg) {b p q : Nat}
    (hp : SlotIn cfg b p) (hq : SlotIn cfg b q) (hne : p ≠ q) :
    p + cfg.slotSize ≤ q ∨ q + cfg.slotSize ≤ p := by
  obtain ⟨i, hi, _⟩ := hp
  obtain ⟨j, hj, _⟩ := hq
  have hm := hcfg.slotSize_pos
  rcases Nat.lt_trichotomy i j with h | h | h
  · left
    have h1 : (i + 1) * cfg.slotSize ≤ j * cfg.slotSize :=
      Nat.mul_le_mul_right _ (by omega)
    have h2 : (i + 1) * cfg.slotSize = i * cfg.slotSize + cfg.slotSize := by ring
    omega
  · exact absurd (by rw [hi, hj, h]) hne
  · right
    have h1 : (j + 1) * cfg.slotSize ≤ i * cfg.slotSize :=
      Nat.mul_le_mul_right _ (by omega)
    have h2 : (j + 1) * cfg.slotSize = j * cfg.slotSize + cfg.slotSize := by ring
    omega

lemma range_reverse_succ (n : Nat) (f : Nat → Nat) :
    (List.range (n + 1)).reverse.map f = f n :: (List.range n).reverse.map f := by
  rw [List.range_succ, List.reverse_append]
  simp

lemma blocks_oracle {cfg : Config} {oracle : Nat → Nat} {st : RunState}
    (h : WF cfg oracle st) {b : Nat} (hb : b ∈ st.pool.blocks) :
    ∃ i, i < st.pool.blocks.length ∧ b = oracle i := by
  rw [h.blocks_eq] at hb
  simp only [List.mem_map, List.mem_reverse, List.mem_range] at hb
  obtain ⟨i, hi, he⟩ := hb
  exact ⟨i, hi, he.symm⟩

/-! ### Shape of a single step -/

lemma step_alloc_pop (cfg : Config) (oracle : Nat → Nat) (st : RunState)
    (q : Nat) (rest : List Nat) (hfs : st.pool.freeSlots = q :: rest) :
    step cfg oracle st Op.alloc =
      ⟨{ st.pool with freeSlots := rest }, q :: st.live, q :: st.returned⟩ := by
  simp [step, allocate, hfs]

lemma step_alloc_bump (cfg : Config) (oracle : Nat → Nat) (st : RunState)
    (hfs : st.pool.freeSlots = [])
    (hlt : st.pool.currentSlot < st.pool.lastSlot) :
    step cfg oracle st Op.alloc =
      ⟨{ st.pool with currentSlot := st.pool.currentSlot + cfg.slotSize },
       st.pool.currentSlot :: st.live, st.pool.currentSlot :: st.returned⟩ := by
  simp [step, allocate, hfs, Nat.not_le.mpr hlt]

lemma step_alloc_grow (cfg : Config) (oracle : Nat → Nat) (st : RunState)
    (hfs : st.pool.freeSlots = [])
    (hge : st.pool.lastSlot ≤ st.pool.currentSlot) :
    step cfg oracle st Op.alloc =
      ⟨⟨oracle st.pool.blocks.length :: st.pool.blocks,
         firstSlot cfg (oracle st.pool.blocks.length) + cfg.slotSize,
         oracle st.pool.blocks.length + cfg.blockSize - cfg.slotSize + 1, []⟩,
       firstSlot cfg (oracle st.pool.blocks.length) :: st.live,
       firstSlot cfg (oracle st.pool.blocks.length) :: st.returned⟩ := by
  simp [step, allocate, hfs, hge, allocateBlock, firstSlot]

lemma step_dealloc_mem (cfg : Config) (oracle : Nat → Nat) (st : RunState)
    (p : Nat) (hp : p ∈ st.live) :
    step cfg oracle st (Op.dealloc p) =
      ⟨deallocate p 1 st.pool, st.live.erase p, st.returned⟩ := by
  simp [step, hp]

lemma step_dealloc_nomem (cfg : Config) (oracle : Nat → Nat) (st : RunState)
    (p : Nat) (hp : p ∉ st.live) :
    step cfg oracle st (Op.dealloc p) = st := by
  simp [step, hp]

/-! ### Preservation of the invariant -/

lemma WF_init (cfg : Config) (oracle : Nat → Nat) :
    WF cfg oracle ⟨Pool.init, [], []⟩ := by
  refine ⟨rfl, ?_, ?_, ?_, ?_, ?_, ?_, ?_⟩
  · intro _
    exact ⟨rfl, rfl, rfl, rfl, rfl⟩
  · intro b bs hb
    exact absurd hb (by simp [Pool.init])
  · intro b bs hb
    exact absurd hb (by simp [Pool.init])
  · intro p hp
    exact absurd hp (by simp [Pool.init])
  · intro p hp
    exact absurd hp (by simp)
  · intro p hp
    exact absurd hp (by simp [Pool.init])
  · simp [Pool.init]

lemma nonempty_blocks_of_cursor {cfg : Config} {oracle : Nat → Nat}
    {st : RunState} (h : WF cfg oracle st)
    (hlt : st.pool.currentSlot < st.pool.lastSlot) :
    ∃ b bs, st.pool.blocks = b :: bs := by
  rcases hb : st.pool.blocks with _ | ⟨b, bs⟩
  · have he := h.empty_inv hb
    omega
  · exact ⟨b, bs, rfl⟩

lemma step_WF (cfg : Config) (oracle : Nat → Nat) (N : Nat) (st : RunState)
    (op : Op) (hcfg : CfgOK cfg) (hO : OracleOK cfg oracle N)
    (hlen : st.pool.blocks.length < N) (h : WF cfg oracle st) :
    WF cfg oracle (step cfg oracle st op) ∧
      (step cfg oracle st op).pool.blocks.length ≤ st.pool.blocks.length + 1 := by
  have hm := hcfg.slotSize_pos
  cases op with
  | alloc =>
    rcases hfs : st.pool.freeSlots with _ | ⟨q, rest⟩
    · by_cases hge : st.pool.lastSlot ≤ st.pool.currentSlot
      · -- growth: a fresh block is linked in and its first slot handed out
        rw [step_alloc_grow cfg oracle st hfs hge]
        have hOl := hO st.pool.blocks.length hlen
        have hnb_al := hOl.1
        have hnb_w := hOl.2.1
        have hfit : firstSlot cfg (oracle st.pool.blocks.length) + cfg.slotSize ≤
            oracle st.pool.blocks.length + cfg.blockSize :=
          first_fit cfg hcfg _ hnb_al hnb_w
        have hcin : SlotIn cfg (oracle st.pool.blocks.length)
            (firstSlot cfg (oracle st.pool.blocks.length)) :=
          ⟨0, by omega, hfit⟩
        -- any previously handed-out address lies in an older, disjoint block
        have hold : ∀ p, p ∈ st.live ++ st.pool.freeSlots →
            ¬ (oracle st.pool.blocks.length ≤ p ∧
               p < oracle st.pool.blocks.length + cfg.blockSize) := by
          intro p hp hrange
          obtain ⟨b', hb'mem, hb'in⟩ := h.mem_slots p hp
          obtain ⟨i, hiL, hio⟩ := blocks_oracle h hb'mem
          have hiN : i < N := lt_trans hiL hlen
          have hdis := (hO i hiN).2.2 st.pool.blocks.length hlen (by omega)
          have h1 := SlotIn_lb cfg hb'in
          have h2 := SlotIn_ub cfg hb'in
          rw [hio] at h1 h2
          rcases hdis with h5 | h5 <;> omega
        have hnotin : firstSlot cfg (oracle st.pool.blocks.length) ∉
            st.live ++ st.pool.freeSlots := by
          intro hmem
          exact hold _ hmem ⟨firstSlot_ge cfg _, by omega⟩
        constructor
        · refine ⟨?_, ?_, ?_, ?_, ?_, ?_, ?_, ?_⟩
          · show oracle st.pool.blocks.length :: st.pool.blocks =
              (List.range (oracle st.pool.blocks.length :: st.pool.blocks).length).reverse.map oracle
            rw [List.length_cons, range_reverse_succ]
            rw [← h.blocks_eq]
          · intro habs
            exact absurd habs (by simp)
          · intro b' bs' hb'
            injection hb' with h1 h2
            rw [← h1]
          · intro b' bs' hb'
            injection hb' with h1 h2
            refine ⟨1, ?_⟩
            rw [← h1]
            show firstSlot cfg (oracle st.pool.blocks.length) + cfg.slotSize =
              firstSlot cfg (oracle st.pool.blocks.length) + 1 * cfg.slotSize
            omega
          · intro p hp
            simp only [List.append_nil, List.mem_cons] at hp
            rcases hp with hp | hp
            · subst hp
              exact ⟨_, List.mem_cons_self _ _, hcin⟩
            · have hp' : p ∈ st.live ++ st.pool.freeSlots := by
                rw [hfs, List.append_nil]; exact hp
              obtain ⟨b', hb'mem, hb'in⟩ := h.mem_slots p hp'
              exact ⟨b', List.mem_cons_of_mem _ hb'mem, hb'in⟩
          · intro p hp
            simp only [List.mem_cons] at hp
            rcases hp with hp | hp
            · subst hp
              exact ⟨_, List.mem_cons_self _ _, hcin⟩
            · obtain ⟨b', hb'mem, hb'in⟩ := h.ret_slots p hp
              exact ⟨b', List.mem_cons_of_mem _ hb'mem, hb'in⟩
          · intro p hp b' bs' hb' hslot
            injection hb' with h1 h2
            simp only [List.append_nil, List.mem_cons] at hp
            rcases hp with hp | hp
            · subst hp
              show firstSlot cfg (oracle st.pool.blocks.length) + cfg.slotSize ≤
                firstSlot cfg (oracle st.pool.blocks.length) + cfg.slotSize
              omega
            · exfalso
              have hp' : p ∈ st.live ++ st.pool.freeSlots := by
                rw [hfs, List.append_nil]; exact hp
              have h3 := SlotIn_lb cfg hslot
              have h4 := SlotIn_ub cfg hslot
              rw [← h1] at h3 h4
              exact hold p hp' ⟨h3, by omega⟩
          · show ((firstSlot cfg (oracle st.pool.blocks.length) :: st.live) ++ []).Nodup
            rw [List.append_nil]
            refine List.nodup_cons.mpr ⟨?_, ?_⟩
            · intro hmem
              exact hnotin (by rw [hfs, List.append_nil]; exact hmem)
            · have := h.nodup
              rw [hfs, List.append_nil] at this
              exact this
        · simp
      · -- bump: the cursor address is handed out and the cursor advances
        have hlt := Nat.lt_of_not_le hge
        rw [step_alloc_bump cfg oracle st hfs hlt]
        obtain ⟨b, bs, hbs⟩ := nonempty_blocks_of_cursor h hlt
        have hlast := h.last_eq b bs hbs
        obtain ⟨j, hj⟩ := h.cur_grid b bs hbs
        have h2s := hcfg.two_slots
        have hfit : st.pool.currentSlot + cfg.slotSize ≤ b + cfg.blockSize := by
          omega
        have hcin : SlotIn cfg b st.pool.currentSlot := ⟨j, hj, hfit⟩
        have hbmem : b ∈ st.pool.blocks := by
          rw [hbs]; exact List.mem_cons_self _ _
        have hnotin : st.pool.currentSlot ∉ st.live ++ st.pool.freeSlots := by
          intro hmem
          obtain ⟨b', hb'mem, hb'in⟩ := h.mem_slots _ hmem
          by_cases hbb : b' = b
          · subst hbb
            have := h.mem_below _ hmem b' bs hbs hb'in
            omega
          · obtain ⟨i, hiL, hio⟩ := blocks_oracle h hb'mem
            obtain ⟨i₂, hi₂L, hi₂o⟩ := blocks_oracle h hbmem
            have hine : i ≠ i₂ := by
              intro he
              exact hbb (by rw [hio, hi₂o, he])
            have hiN : i < N := lt_trans hiL hlen
            have hi₂N : i₂ < N := lt_trans hi₂L hlen
            have hdis := (hO i hiN).2.2 i₂ hi₂N (fun he => hine he.symm)
            have h1 := SlotIn_lb cfg hb'in
            have h2 := SlotIn_ub cfg hb'in
            have h3 := SlotIn_lb cfg hcin
            have h4 := hfit
            rw [hio] at h1 h2
            rw [hi₂o] at h3 h4
            rcases hdis with h5 | h5 <;> omega
        constructor
        · refine ⟨?_, ?_, ?_, ?_, ?_, ?_, ?_, ?_⟩
          · exact h.blocks_eq
          · intro habs
            rw [hbs] at habs
            exact absurd habs (by simp)
          · intro b' bs' hb'
            exact h.last_eq b' bs' hb'
          · intro b' bs' hb'
            rw [hbs] at hb'
            injection hb' with h1 h2
            refine ⟨j + 1, ?_⟩
            rw [← h1]
            show st.pool.currentSlot + cfg.slotSize = firstSlot cfg b + (j + 1) * cfg.slotSize
            have h6 : (j + 1) * cfg.slotSize = j * cfg.slotSize + cfg.slotSize := by
              ring
            omega
          · intro p hp
            rcases List.mem_append.mp hp with hp' | hp'
            · rcases List.mem_cons.mp hp' with hp'' | hp''
              · subst hp''
                exact ⟨b, hbmem, hcin⟩
              · exact h.mem_slots p (List.mem_append.mpr (Or.inl hp''))
            · exact h.mem_slots p (List.mem_append.mpr (Or.inr hp'))
          · intro p hp
            rcases List.mem_cons.mp hp with hp' | hp'
            · subst hp'
              exact ⟨b, hbmem, hcin⟩
            · exact h.ret_slots p hp'
          · intro p hp b' bs' hb' hslot
            show p + cfg.slotSize ≤ st.pool.currentSlot + cfg.slotSize
            rcases List.mem_append.mp hp with hp' | hp'
            · rcases List.mem_cons.mp hp' with hp'' | hp''
              · subst hp''
                omega
              · have := h.mem_below p (List.mem_append.mpr (Or.inl hp'')) b' bs' hb' hslot
                omega
            · have := h.mem_below p (List.mem_append.mpr (Or.inr hp')) b' bs' hb' hslot
              omega
          · show ((st.pool.currentSlot :: st.live) ++ st.pool.freeSlots).Nodup
            have heq : (st.pool.currentSlot :: st.live) ++ st.pool.freeSlots =
                st.pool.currentSlot :: (st.live ++ st.pool.freeSlots) := rfl
            rw [heq]
            exact List.nodup_cons.mpr ⟨hnotin, h.nodup⟩
        · simp
    · -- free-list pop: the head of the free list moves to the live set
      rw [step_alloc_pop cfg oracle st q rest hfs]
      have hperm : List.Perm ((q :: st.live) ++ rest)
          (st.live ++ st.pool.freeSlots) := by
        rw [hfs]
        exact List.perm_middle.symm
      constructor
      · refine ⟨?_, ?_, ?_, ?_, ?_, ?_, ?_, ?_⟩
        · exact h.blocks_eq
        · intro habs
          have h1 := (h.empty_inv habs).2.2.2.1
          rw [hfs] at h1
          exact absurd h1 (by simp)
        · intro b' bs' hb'
          exact h.last_eq b' bs' hb'
        · intro b' bs' hb'
          exact h.cur_grid b' bs' hb'
        · intro p hp
          exact h.mem_slots p (hperm.mem_iff.mp hp)
        · intro p hp
          rcases List.mem_cons.mp hp with hp' | hp'
          · subst hp'
            refine h.mem_slots p ?_
            rw [hfs]
            exact List.mem_append.mpr (Or.inr (List.mem_cons_self _ _))
          · exact h.ret_slots p hp'
        · intro p hp b' bs' hb' hslot
          exact h.mem_below p (hperm.mem_iff.mp hp) b' bs' hb' hslot
        · exact hperm.nodup_iff.mpr h.nodup
      · simp
  | dealloc p =>
    by_cases hp : p ∈ st.live
    · rw [step_dealloc_mem cfg oracle st p hp]
      by_cases hp0 : p ≠ 0
      · have hd : deallocate p 1 st.pool =
            { st.pool with freeSlots := p :: st.pool.freeSlots } := by
          simp [deallocate, hp0]
        rw [hd]
        have hperm : List.Perm (st.live.erase p ++ p :: st.pool.freeSlots)
            (st.live ++ st.pool.freeSlots) := by
          have h1 : List.Perm st.live (p :: st.live.erase p) :=
            List.perm_cons_erase hp
          have h2 : List.Perm (st.live.erase p ++ p :: st.pool.freeSlots)
              (p :: (st.live.erase p ++ st.pool.freeSlots)) := List.perm_middle
          have h3 : List.Perm ((p :: st.live.erase p) ++ st.pool.freeSlots)
              (st.live ++ st.pool.freeSlots) := (h1.append_right _).symm
          exact h2.trans h3
        constructor
        · refine ⟨?_, ?_, ?_, ?_, ?_, ?_, ?_, ?_⟩
          · exact h.blocks_eq
          · intro habs
            have h1 := (h.empty_inv habs).2.2.1
            rw [h1] at hp
            exact absurd hp (List.not_mem_nil p)
          · intro b' bs' hb'
            exact h.last_eq b' bs' hb'
          · intro b' bs' hb'
            exact h.cur_grid b' bs' hb'
          · intro x hx
            exact h.mem_slots x (hperm.mem_iff.mp hx)
          · intro x hx
            exact h.ret_slots x hx
          · intro x hx b' bs' hb' hslot
            exact h.mem_below x (hperm.mem_iff.mp hx) b' bs' hb' hslot
          · exact hperm.nodup_iff.mpr h.nodup
        · simp
      · push_neg at hp0
        have hd : deallocate p 1 st.pool = st.pool := by
          simp [deallocate, hp0]
        rw [hd]
        have hsub : List.Sublist (st.live.erase p ++ st.pool.freeSlots)
            (st.live ++ st.pool.freeSlots) :=
          (List.erase_sublist p st.live).append_right _
        constructor
        · refine ⟨?_, ?_, ?_, ?_, ?_, ?_, ?_, ?_⟩
          · exact h.blocks_eq
          · intro habs
            have he := h.empty_inv habs
            exact ⟨he.1, he.2.1, by rw [he.2.2.1]; rfl, he.2.2.2.1, he.2.2.2.2⟩
          · intro b' bs' hb'
            exact h.last_eq b' bs' hb'
          · intro b' bs' hb'
            exact h.cur_grid b' bs' hb'
          · intro x hx
            exact h.mem_slots x (hsub.subset hx)
          · intro x hx
            exact h.ret_slots x hx
          · intro x hx b' bs' hb' hslot
            exact h.mem_below x (hsub.subset hx) b' bs' hb' hslot
          · exact h.nodup.sublist hsub
        · simp
    · rw [step_dealloc_nomem cfg oracle st p hp]
      exact ⟨h, Nat.le_succ _⟩

lemma foldl_WF (cfg : Config) (oracle : Nat → Nat) (N : Nat)
    (hcfg : CfgOK cfg) (hO : OracleOK cfg oracle N) :
    ∀ (ops : List Op) (st : RunState), WF cfg oracle st →
      st.pool.blocks.length + ops.length ≤ N →
      WF cfg oracle (ops.foldl (step cfg oracle) st) ∧
        (ops.foldl (step cfg oracle) st).pool.blocks.length ≤
          st.pool.blocks.length + ops.length := by
  intro ops
  induction ops with
  | nil =>
    intro st h hbound
    exact ⟨h, by simp⟩
  | cons op rest ih =>
    intro st h hbound
    rw [List.length_cons] at hbound
    have hlen : st.pool.blocks.length < N := by omega
    have hstep := step_WF cfg oracle N st op hcfg hO hlen h
    have hrest := ih (step cfg oracle st op) hstep.1 (by omega)
    rw [List.foldl_cons]
    refine ⟨hrest.1, ?_⟩
    have h1 := hrest.2
    have h2 := hstep.2
    rw [List.length_cons]
    omega

lemma run_WF (cfg : Config) (oracle : Nat → Nat) (ops : List Op)
    (hcfg : CfgOK cfg) (hO : OracleOK cfg oracle ops.length) :
    WF cfg oracle (run cfg oracle ops) :=
  (foldl_WF cfg oracle ops.length hcfg hO ops ⟨Pool.init, [], []⟩
    (WF_init cfg oracle) (by simp [Pool.init])).1

lemma run_blocks_le (cfg : Config) (oracle : Nat → Nat) (ops : List Op)
    (hcfg : CfgOK cfg) (hO : OracleOK cfg oracle ops.length) :
    (run cfg oracle ops).pool.blocks.length ≤ ops.length := by
  have h := (foldl_WF cfg oracle ops.length hcfg hO ops ⟨Pool.init, [], []⟩
    (WF_init cfg oracle) (by simp [Pool.init])).2
  simpa [Pool.init, run] using h

lemma WF_separated (cfg : Config) (oracle : Nat → Nat) (N : Nat)
    (st : RunState) (hcfg : CfgOK cfg) (hO : OracleOK cfg oracle N)
    (hlen : st.pool.blocks.length ≤ N) (h : WF cfg oracle st) :
    ∀ p, p ∈ st.live ++ st.pool.freeSlots →
      ∀ q, q ∈ st.live ++ st.pool.freeSlots →
        p ≠ q → p + cfg.slotSize ≤ q ∨ q + cfg.slotSize ≤ p := by
  intro p hp q hq hne
  obtain ⟨bp, hbpmem, hbpin⟩ := h.mem_slots p hp
  obtain ⟨bq, hbqmem, hbqin⟩ := h.mem_slots q hq
  by_cases hbb : bp = bq
  · subst hbb
    exact SlotIn_separated cfg hcfg hbpin hbqin hne
  · obtain ⟨i, hiL, hio⟩ := blocks_oracle h hbpmem
    obtain ⟨i₂, hi₂L, hi₂o⟩ := blocks_oracle h hbqmem
    have hine : i ≠ i₂ := by
      intro he
      exact hbb (by rw [hio, hi₂o, he])
    have hdis := (hO i (lt_of_lt_of_le hiL hlen)).2.2 i₂
      (lt_of_lt_of_le hi₂L hlen) (fun he => hine he.symm)
    have h1 := SlotIn_lb cfg hbpin
    have h2 := SlotIn_ub cfg hbpin
    have h3 := SlotIn_lb cfg hbqin
    have h4 := SlotIn_ub cfg hbqin
    rw [hio] at h1 h2
    rw [hi₂o] at h3 h4
    rcases hdis with h5 | h5
    · left; omega
    · right; omega

lemma SlotIn_elem_aligned (cfg : Config) (hcfg : CfgOK cfg) {b p : Nat}
    (hbw : b + cfg.ptrSize < wordMod) (h : SlotIn cfg b p) :
    p % cfg.elemAlign = 0 := by
  have h1 := SlotIn_aligned cfg hcfg hbw h
  exact Nat.dvd_iff_mod_eq_zero.mp
    (dvd_trans hcfg.elem_dvd_align (Nat.dvd_of_mod_eq_zero h1))

/-- C7: over every valid sequence of allocate/deallocate operations driven
against one pool (with a system allocator behaving like `operator new`), any
two distinct simultaneously live addresses are at least `sizeof(Slot_)` bytes
apart, so live slots never overlap — whether they came from the bump cursor
of the same block, from different blocks, or from free-list reuse. -/
theorem live_no_overlap (cfg : Config) (oracle : Nat → Nat) (ops : List Op)
    (hcfg : CfgOK cfg) (hO : OracleOK cfg oracle ops.length) :
    ∀ p, p ∈ (run cfg oracle ops).live →
      ∀ q, q ∈ (run cfg oracle ops).live →
        p ≠ q → p + cfg.slotSize ≤ q ∨ q + cfg.slotSize ≤ p := by
  intro p hp q hq hne
  exact WF_separated cfg oracle ops.length (run cfg oracle ops) hcfg hO
    (run_blocks_le cfg oracle ops hcfg hO) (run_WF cfg oracle ops hcfg hO)
    p (List.mem_append.mpr (Or.inl hp)) q (List.mem_append.mpr (Or.inl hq)) hne

/-- Witness for C7: a run with three allocations, one deallocation of a live
slot, and two more allocations (exercising bump, free-list reuse and block
growth). -/
theorem live_no_overlap_witness :
    (CfgOK cfg0 ∧ OracleOK cfg0 orc0 ops1.length) ∧
    (∀ p, p ∈ (run cfg0 orc0 ops1).live →
      ∀ q, q ∈ (run cfg0 orc0 ops1).live →
        p ≠ q → p + cfg0.slotSize ≤ q ∨ q + cfg0.slotSize ≤ p) :=
  ⟨⟨by constructor <;> decide, by unfold OracleOK; decide⟩,
   live_no_overlap cfg0 orc0 ops1 (by constructor <;> decide) (by unfold OracleOK; decide)⟩

/-- C5: over every valid sequence of allocate/deallocate operations (with a
system allocator behaving like `operator new`), every address ever returned
by `allocate` — the padded first slot of each block as well as every later
bump-cursor slot, and every reused free-list slot — is aligned to
`alignof(T)`. -/
theorem returned_aligned (cfg : Config) (oracle : Nat → Nat) (ops : List Op)
    (hcfg : CfgOK cfg) (hO : OracleOK cfg oracle ops.length) :
    ∀ p, p ∈ (run cfg oracle ops).returned → p % cfg.elemAlign = 0 := by
  intro p hp
  have hWF := run_WF cfg oracle ops hcfg hO
  obtain ⟨b, hbmem, hbin⟩ := hWF.ret_slots p hp
  obtain ⟨i, hiL, hio⟩ := blocks_oracle hWF hbmem
  have hiN : i < ops.length :=
    lt_of_lt_of_le hiL (run_blocks_le cfg oracle ops hcfg hO)
  have hOl := hO i hiN
  have hbw : b + cfg.ptrSize < wordMod := by
    have h1 := hOl.2.1
    have h2 := hcfg.ptr_le_slot
    have h3 := hcfg.two_slots
    rw [hio]
    omega
  exact SlotIn_elem_aligned cfg hcfg hbw hbin

/-- Witness for C5 on the sample run of two allocations. -/
theorem returned_aligned_witness :
    (CfgOK cfg0 ∧ OracleOK cfg0 orc0 ops0.length) ∧
    (∀ p, p ∈ (run cfg0 orc0 ops0).returned → p % cfg0.elemAlign = 0) :=
  ⟨⟨by constructor <;> decide, by unfold OracleOK; decide⟩,
   returned_aligned cfg0 orc0 ops0 (by constructor <;> decide) (by unfold OracleOK; decide)⟩

/-! ### Consecutive allocations from a single block -/

lemma run_replicate_alloc (cfg : Config) (oracle : Nat → Nat)
    (hcfg : CfgOK cfg) (h0al : cfg.slotAlign ∣ oracle 0)
    (h0w : oracle 0 + cfg.blockSize < wordMod) :
    ∀ n, 1 ≤ n → n ≤ slotsPerBlock cfg (oracle 0) →
      run cfg oracle (List.replicate n Op.alloc) =
        ⟨⟨[oracle 0], firstSlot cfg (oracle 0) + n * cfg.slotSize,
          oracle 0 + cfg.blockSize - cfg.slotSize + 1, []⟩,
         (List.range n).reverse.map
           (fun i => firstSlot cfg (oracle 0) + i * cfg.slotSize),
         (List.range n).reverse.map
           (fun i => firstSlot cfg (oracle 0) + i * cfg.slotSize)⟩ := by
  intro n
  induction n with
  | zero =>
    intro h1 _
    exact absurd h1 (by omega)
  | succ n ih =>
    intro h1 hk
    rcases Nat.eq_zero_or_pos n with hn | hn
    · subst hn
      have hrw : List.replicate 1 Op.alloc = [Op.alloc] := rfl
      show run cfg oracle (List.replicate 1 Op.alloc) = _
      rw [hrw]
      unfold run
      rw [List.foldl_cons, List.foldl_nil]
      rw [step_alloc_grow cfg oracle ⟨Pool.init, [], []⟩ rfl (Nat.le_refl 0)]
      simp [Pool.init, List.range_succ]
    · have hr := ih hn (Nat.le_trans (Nat.le_succ n) hk)
      have hrep : List.replicate (n + 1) Op.alloc =
          List.replicate n Op.alloc ++ [Op.alloc] := List.replicate_succ' n Op.alloc
      unfold run at hr ⊢
      rw [hrep, List.foldl_append, hr, List.foldl_cons, List.foldl_nil]
      have hm := hcfg.slotSize_pos
      have hfit := first_fit cfg hcfg (oracle 0) h0al h0w
      have hdm : slotsPerBlock cfg (oracle 0) * cfg.slotSize ≤
          oracle 0 + cfg.blockSize - firstSlot cfg (oracle 0) :=
        Nat.div_mul_le_self _ _
      have hmul : (n + 1) * cfg.slotSize ≤
          slotsPerBlock cfg (oracle 0) * cfg.slotSize :=
        Nat.mul_le_mul_right _ hk
      have harith : (n + 1) * cfg.slotSize = n * cfg.slotSize + cfg.slotSize := by
        ring
      have hlt : firstSlot cfg (oracle 0) + n * cfg.slotSize <
          oracle 0 + cfg.blockSize - cfg.slotSize + 1 := by omega
      rw [step_alloc_bump cfg oracle
        ⟨⟨[oracle 0], firstSlot cfg (oracle 0) + n * cfg.slotSize,
          oracle 0 + cfg.blockSize - cfg.slotSize + 1, []⟩,
         (List.range n).reverse.map
           (fun i => firstSlot cfg (oracle 0) + i * cfg.slotSize),
         (List.range n).reverse.map
           (fun i => firstSlot cfg (oracle 0) + i * cfg.slotSize)⟩ rfl hlt]
      rw [range_reverse_succ]
      have hcur : firstSlot cfg (oracle 0) + n * cfg.slotSize + cfg.slotSize
          = firstSlot cfg (oracle 0) + (n + 1) * cfg.slotSize := by ring
      simp [hcur]

/-- C6: when the block delivered for the first growth holds exactly `k` slots
after its leading back-reference word and body padding, `k` consecutive
allocations from a fresh pool are all served from that one block, at the `k`
consecutive slot-grid addresses; the limit cursor is one past the last slot
that fully fits (the cursor reaches it exactly when another whole slot no
longer fits); and the `(k+1)`-th allocation triggers growth of a second block
and returns its aligned first slot, a whole slot away from all `k` prior
addresses. -/
theorem growth_trigger (cfg : Config) (oracle : Nat → Nat)
    (hcfg : CfgOK cfg) (hO : OracleOK cfg oracle 2) :
    (∀ n, 1 ≤ n → n ≤ slotsPerBlock cfg (oracle 0) →
      (run cfg oracle (List.replicate n Op.alloc)).pool.blocks = [oracle 0] ∧
      (run cfg oracle (List.replicate n Op.alloc)).returned =
        (List.range n).reverse.map
          (fun i => firstSlot cfg (oracle 0) + i * cfg.slotSize)) ∧
    (∀ c, (run cfg oracle (List.replicate 1 Op.alloc)).pool.lastSlot ≤ c ↔
      oracle 0 + cfg.blockSize < c + cfg.slotSize) ∧
    ((run cfg oracle
        (List.replicate (slotsPerBlock cfg (oracle 0) + 1) Op.alloc)).pool.blocks
      = [oracle 1, oracle 0] ∧
     (run cfg oracle
        (List.replicate (slotsPerBlock cfg (oracle 0) + 1) Op.alloc)).returned
      = firstSlot cfg (oracle 1) ::
        (List.range (slotsPerBlock cfg (oracle 0))).reverse.map
          (fun i => firstSlot cfg (oracle 0) + i * cfg.slotSize) ∧
     firstSlot cfg (oracle 1) % cfg.elemAlign = 0 ∧
     (∀ q, q ∈ (List.range (slotsPerBlock cfg (oracle 0))).reverse.map
          (fun i => firstSlot cfg (oracle 0) + i * cfg.slotSize) →
       firstSlot cfg (oracle 1) + cfg.slotSize ≤ q ∨
         q + cfg.slotSize ≤ firstSlot cfg (oracle 1))) := by
  have hm := hcfg.slotSize_pos
  have hO0 := hO 0 (by omega)
  have hO1 := hO 1 (by omega)
  have hfit0 := first_fit cfg hcfg (oracle 0) hO0.1 hO0.2.1
  have hfit1 := first_fit cfg hcfg (oracle 1) hO1.1 hO1.2.1
  have hKdef : slotsPerBlock cfg (oracle 0) =
      (oracle 0 + cfg.blockSize - firstSlot cfg (oracle 0)) / cfg.slotSize := rfl
  have hk1 : 1 ≤ slotsPerBlock cfg (oracle 0) := by
    rw [hKdef, Nat.le_div_iff_mul_le hm]
    omega
  refine ⟨?_, ?_, ?_⟩
  · intro n h1 hk
    rw [run_replicate_alloc cfg oracle hcfg hO0.1 hO0.2.1 n h1 hk]
    exact ⟨rfl, rfl⟩
  · intro c
    rw [run_replicate_alloc cfg oracle hcfg hO0.1 hO0.2.1 1 (Nat.le_refl 1) hk1]
    show oracle 0 + cfg.blockSize - cfg.slotSize + 1 ≤ c ↔ _
    have h2s := hcfg.two_slots
    omega
  · have hrk := run_replicate_alloc cfg oracle hcfg hO0.1 hO0.2.1
      (slotsPerBlock cfg (oracle 0)) hk1 (Nat.le_refl _)
    have hrep : List.replicate (slotsPerBlock cfg (oracle 0) + 1) Op.alloc =
        List.replicate (slotsPerBlock cfg (oracle 0)) Op.alloc ++ [Op.alloc] :=
      List.replicate_succ' _ Op.alloc
    have hdm : slotsPerBlock cfg (oracle 0) * cfg.slotSize ≤
        oracle 0 + cfg.blockSize - firstSlot cfg (oracle 0) :=
      Nat.div_mul_le_self _ _
    have hq := Nat.div_add_mod
      (oracle 0 + cfg.blockSize - firstSlot cfg (oracle 0)) cfg.slotSize
    have hrm := Nat.mod_lt
      (oracle 0 + cfg.blockSize - firstSlot cfg (oracle 0)) hm
    have hge : oracle 0 + cfg.blockSize - cfg.slotSize + 1 ≤
        firstSlot cfg (oracle 0) +
          slotsPerBlock cfg (oracle 0) * cfg.slotSize := by
      rw [hKdef]
      have hcomm : ((oracle 0 + cfg.blockSize - firstSlot cfg (oracle 0)) /
            cfg.slotSize) * cfg.slotSize =
          cfg.slotSize * ((oracle 0 + cfg.blockSize - firstSlot cfg (oracle 0)) /
            cfg.slotSize) := Nat.mul_comm _ _
      omega
    have hstep : run cfg oracle
        (List.replicate (slotsPerBlock cfg (oracle 0) + 1) Op.alloc) =
        ⟨⟨oracle 1 :: [oracle 0],
          firstSlot cfg (oracle 1) + cfg.slotSize,
          oracle 1 + cfg.blockSize - cfg.slotSize + 1, []⟩,
         firstSlot cfg (oracle 1) ::
           (List.range (slotsPerBlock cfg (oracle 0))).reverse.map
             (fun i => firstSlot cfg (oracle 0) + i * cfg.slotSize),
         firstSlot cfg (oracle 1) ::
           (List.range (slotsPerBlock cfg (oracle 0))).reverse.map
             (fun i => firstSlot cfg (oracle 0) + i * cfg.slotSize)⟩ := by
      unfold run at hrk ⊢
      rw [hrep, List.foldl_append, hrk, List.foldl_cons, List.foldl_nil]
      rw [step_alloc_grow cfg oracle
        ⟨⟨[oracle 0], firstSlot cfg (oracle 0) +
            slotsPerBlock cfg (oracle 0) * cfg.slotSize,
          oracle 0 + cfg.blockSize - cfg.slotSize + 1, []⟩,
         (List.range (slotsPerBlock cfg (oracle 0))).reverse.map
           (fun i => firstSlot cfg (oracle 0) + i * cfg.slotSize),
         (List.range (slotsPerBlock cfg (oracle 0))).reverse.map
           (fun i => firstSlot cfg (oracle 0) + i * cfg.slotSize)⟩ rfl hge]
      rfl
    refine ⟨by rw [hstep], by rw [hstep], ?_, ?_⟩
    · have h1w : oracle 1 + cfg.ptrSize < wordMod := by
        have h1 := hO1.2.1
        have h2 := hcfg.ptr_le_slot
        have h3 := hcfg.two_slots
        omega
      have h1 := firstSlot_aligned cfg hcfg (oracle 1) h1w
      exact Nat.dvd_iff_mod_eq_zero.mp
        (dvd_trans hcfg.elem_dvd_align (Nat.dvd_of_mod_eq_zero h1))
    · intro q hq'
      simp only [List.mem_map, List.mem_reverse, List.mem_range] at hq'
      obtain ⟨i, hik, hqe⟩ := hq'
      subst hqe
      have him : (i + 1) * cfg.slotSize ≤
          slotsPerBlock cfg (oracle 0) * cfg.slotSize :=
        Nat.mul_le_mul_right _ (by omega)
      have hith : (i + 1) * cfg.slotSize = i * cfg.slotSize + cfg.slotSize := by
        ring
      have hge0 := firstSlot_ge cfg (oracle 0)
      have hge1 := firstSlot_ge cfg (oracle 1)
      have hdis := hO1.2.2 0 (by omega) (by omega)
      rcases hdis with h5 | h5
      · left
        omega
      · right
        omega

/-- Witness for C6: with `cfg0` (block size 32, slot size 8) and blocks at
1024 and 2048, the block holds `k = 3` slots and the fourth allocation grows
a second block. -/
theorem growth_trigger_witness :
    (CfgOK cfg0 ∧ OracleOK cfg0 orc0 2) ∧
    (run cfg0 orc0
        (List.replicate (slotsPerBlock cfg0 (orc0 0) + 1) Op.alloc)).pool.blocks
      = [orc0 1, orc0 0] :=
  ⟨⟨by constructor <;> decide, by unfold OracleOK; decide⟩,
   (growth_trigger cfg0 orc0 (by constructor <;> decide)
      (by unfold OracleOK; decide)).2.2.1⟩

end MemPool
